import Mathlib

/-!
Verification of the SPARE score pipeline (`spare_scores/spare_scores.py`).

This file gives a shallow embedding of `spare_train` and `spare_test` and
proves properties of the embedded definitions.  Cell values are modelled by
`Val` (a rational number or a string); a pandas missing value (NaN) in a
column is modelled by `Option Val` being `none`.  Machine floats are
modelled by rationals (and by reals where `np.exp` is involved).
-/

/-- A scalar cell value of a dataframe: numeric or string. -/
inductive Val
  | num (q : ℚ)
  | str (s : String)
deriving DecidableEq, Repr

/-- The pandas dtypes that occur in the pipeline.  The source only ever
tests membership in `['int64', 'float64']` and equality with `np.object`. -/
inductive PdType
  | int64
  | float64
  | object
deriving DecidableEq, Repr

/-- `pandas.Series.unique`: distinct values in first-seen order. -/
def pdUnique {α : Type} [DecidableEq α] (l : List α) : List α :=
  l.foldl (fun acc v => if v ∈ acc then acc else acc ++ [v]) []

theorem pdUnique_loop_nodup {α : Type} [DecidableEq α] :
    ∀ (l acc : List α), acc.Nodup →
      (l.foldl (fun acc v => if v ∈ acc then acc else acc ++ [v]) acc).Nodup := by
  intro l
  induction l with
  | nil => intro acc h; exact h
  | cons x xs ih =>
      intro acc h
      simp only [List.foldl_cons]
      by_cases hx : x ∈ acc
      · simpa [hx] using ih acc h
      · have : (acc ++ [x]).Nodup := by
          simp [List.nodup_append, h, hx]
        simpa [hx] using ih (acc ++ [x]) this

theorem pdUnique_nodup {α : Type} [DecidableEq α] (l : List α) :
    (pdUnique l).Nodup :=
  pdUnique_loop_nodup l [] List.nodup_nil

theorem pdUnique_loop_mem {α : Type} [DecidableEq α] :
    ∀ (l acc : List α) (a : α),
      (a ∈ l.foldl (fun acc v => if v ∈ acc then acc else acc ++ [v]) acc) ↔
        (a ∈ acc ∨ a ∈ l) := by
  intro l
  induction l with
  | nil => intro acc a; simp
  | cons x xs ih =>
      intro acc a
      simp only [List.foldl_cons]
      by_cases hx : x ∈ acc
      · rw [if_pos hx, ih]
        constructor
        · rintro (h | h)
          · exact Or.inl h
          · exact Or.inr (List.mem_cons_of_mem _ h)
        · rintro (h | h)
          · exact Or.inl h
          · rcases List.mem_cons.mp h with h | h
            · exact Or.inl (h ▸ hx)
            · exact Or.inr h
      · rw [if_neg hx, ih]
        constructor
        · rintro (h | h)
          · rcases List.mem_append.mp h with h | h
            · exact Or.inl h
            · exact Or.inr (List.mem_cons.mpr (Or.inl (List.mem_singleton.mp h)))
          · exact Or.inr (List.mem_cons_of_mem _ h)
        · rintro (h | h)
          · exact Or.inl (List.mem_append.mpr (Or.inl h))
          · rcases List.mem_cons.mp h with h | h
            · exact Or.inl (List.mem_append.mpr (Or.inr (by simp [h])))
            · exact Or.inr h

theorem pdUnique_mem {α : Type} [DecidableEq α] (l : List α) (a : α) :
    a ∈ pdUnique l ↔ a ∈ l := by
  unfold pdUnique
  rw [pdUnique_loop_mem]
  simp

/-- SPARE model kind chosen at training time. -/
inductive SpareType
  | classification
  | regression
deriving DecidableEq, Repr

/-- Fatal validation failure of `spare_train` (`logging.error` followed by
`return`), named after the error taxonomy of the specification. -/
inductive SpareErr
  | missingPredictors
  | missingPosGroup
  | invalidPosGroup
  | insufficientGroupSize
  | nonNumericTarget
  | insufficientSampleSize
  | noVariance
deriving DecidableEq, Repr

/-- Non-fatal `logging.warn` / `logging.info` messages of the validation
block of `spare_train`. -/
inductive SpareWarn
  | smallGroup
  | smallSample
  | dupParticipants
  | posGroupIgnored
deriving DecidableEq, Repr

/-- `np.min(df[to_predict].value_counts())`: the size of the smallest group
of the target column (`0` on an empty column, unreachable in context). -/
def minCount (l : List Val) : ℕ :=
  match (pdUnique l).map (fun v => l.count v) with
  | [] => 0
  | h :: t => t.foldl min h

/-- Result of the validation / type-detection block of `spare_train`. -/
structure ValidOut where
  spareType : SpareType
  groups : List Val
  warns : List SpareWarn
deriving DecidableEq, Repr

/-- Lines 32-58 of `spare_scores.py`: mode detection and validation of
`spare_train`.  `tvals` is the target column `df[to_predict]`, `tdtype` its
dtype, `ptids` the `PTID` column, `posGroup` the `pos_group` argument
(the source compares it with `''` for absence).  The duplicated-participant
check `(df['PTID']+df[to_predict]).duplicated()` is modelled on pairs
instead of string concatenation. -/
def spareTypeDetect (tvals : List Val) (tdtype : PdType) (ptids : List Val)
    (posGroup : Val) : Except SpareErr ValidOut :=
  let u := pdUnique tvals
  if u.length = 2 then
    if posGroup = Val.str "" then .error .missingPosGroup
    else if posGroup ∉ u then .error .invalidPosGroup
    else if minCount tvals < 10 then .error .insufficientGroupSize
    else
      let w1 := if minCount tvals < 100 then [SpareWarn.smallGroup] else []
      let w2 := if (ptids.zip tvals).Nodup then [] else [SpareWarn.dupParticipants]
      .ok ⟨.classification, u.filter (· ≠ posGroup) ++ [posGroup], w1 ++ w2⟩
  else if 2 < u.length then
    if tdtype ≠ .int64 ∧ tdtype ≠ .float64 then .error .nonNumericTarget
    else if tvals.length < 10 then .error .insufficientSampleSize
    else
      let w1 := if tvals.length < 100 then [SpareWarn.smallSample] else []
      let w2 := if ptids.Nodup then [] else [SpareWarn.dupParticipants]
      let w3 := if posGroup ≠ Val.str "" then [SpareWarn.posGroupIgnored] else []
      .ok ⟨.regression, [], w1 ++ w2 ++ w3⟩
  else .error .noVariance

/-- `np.linspace(a, b, num=n)`: `n` evenly spaced points from `a` to `b`
inclusive (`[a]` for `n = 1`, `[]` for `n = 0`). -/
def linspace (a b : ℚ) (n : ℕ) : List ℚ :=
  match n with
  | 0 => []
  | 1 => [a]
  | Nat.succ (Nat.succ m) =>
      (List.range (m + 2)).map (fun i : ℕ => a + (i : ℚ) * (b - a) / (m + 1))

/-- Python `int(·)` on a float: truncation toward zero. -/
def pyInt (q : ℚ) : ℤ :=
  if 0 ≤ q then ⌊q⌋ else ⌈q⌉

/-- `_expspace` (line 24-25 of `spare_scores.py`):
`np.exp(np.linspace(span[0], span[1], num=int(span[1])-int(span[0])+1))`.
The two entries of the `span` list are the two arguments. -/
noncomputable def _expspace (s0 s1 : ℚ) : List ℝ :=
  (linspace s0 s1 (pyInt s1 - pyInt s0 + 1).toNat).map (fun q : ℚ => Real.exp (q : ℝ))

theorem linspace_length (a b : ℚ) (n : ℕ) : (linspace a b n).length = n := by
  match n with
  | 0 => rfl
  | 1 => rfl
  | Nat.succ (Nat.succ m) =>
      simp only [linspace, List.length_map, List.length_range]

/-- `np.min` of a nonempty list of rationals (`0` on `[]`, unreachable). -/
def listMin : List ℚ → ℚ
  | [] => 0
  | h :: t => t.foldl min h

/-- `np.max` of a nonempty list of rationals (`0` on `[]`, unreachable). -/
def listMax : List ℚ → ℚ
  | [] => 0
  | h :: t => t.foldl max h

theorem foldl_min_mem : ∀ (t : List ℚ) (h : ℚ), t.foldl min h ∈ h :: t := by
  intro t
  induction t with
  | nil => intro h; simp
  | cons x xs ih =>
      intro h
      show xs.foldl min (min h x) ∈ h :: x :: xs
      rcases List.mem_cons.mp (ih (min h x)) with h1 | h1
      · rcases min_choice h x with h2 | h2
        · rw [h1, h2]; exact List.mem_cons_self _ _
        · rw [h1, h2]; exact List.mem_cons_of_mem _ (List.mem_cons_self _ _)
      · exact List.mem_cons_of_mem _ (List.mem_cons_of_mem _ h1)

theorem foldl_max_mem : ∀ (t : List ℚ) (h : ℚ), t.foldl max h ∈ h :: t := by
  intro t
  induction t with
  | nil => intro h; simp
  | cons x xs ih =>
      intro h
      show xs.foldl max (max h x) ∈ h :: x :: xs
      rcases List.mem_cons.mp (ih (max h x)) with h1 | h1
      · rcases max_choice h x with h2 | h2
        · rw [h1, h2]; exact List.mem_cons_self _ _
        · rw [h1, h2]; exact List.mem_cons_of_mem _ (List.mem_cons_self _ _)
      · exact List.mem_cons_of_mem _ (List.mem_cons_of_mem _ h1)

theorem listMin_mem (l : List ℚ) (hl : l ≠ []) : listMin l ∈ l := by
  match l with
  | [] => exact absurd rfl hl
  | h :: t => exact foldl_min_mem t h

theorem listMax_mem (l : List ℚ) (hl : l ≠ []) : listMax l ∈ l := by
  match l with
  | [] => exact absurd rfl hl
  | h :: t => exact foldl_max_mem t h

/-- SVM kernel selector of `spare_train` / model metadata. -/
inductive Kernel
  | linear
  | rbf
deriving DecidableEq, Repr

/-- The initial (coarse) hyperparameter grid of `spare_train`
(lines 87-91 and 102 of `spare_scores.py`): classification linear uses
`C` over span `[-9, 5]`, classification rbf adds `gamma` over `[-5, 5]`,
regression uses `C` and `epsilon` over `[-5, 5]`. -/
noncomputable def initGrid (st : SpareType) (k : Kernel) : List (String × List ℝ) :=
  match st, k with
  | .classification, .linear => [("C", _expspace (-9) 5)]
  | .classification, .rbf => [("C", _expspace (-9) 5), ("gamma", _expspace (-5) 5)]
  | .regression, _ => [("C", _expspace (-5) 5), ("epsilon", _expspace (-5) 5)]

/-- The arguments of the coarse refinement call of `spare_train`
(lines 92-94 and 103-105): `df.sample(n=500, random_state=2022)`,
`n_repeats=1`, and the coarse grid. -/
structure CoarsePass where
  sampleN : ℕ
  randomState : ℕ
  nRepeats : ℕ
  grid : List (String × List ℝ)

/-- `spare_train` performs the coarse subsample pass exactly when the
(filtered) training table has more than 1000 rows. -/
noncomputable def coarsePass (st : SpareType) (k : Kernel) (n : ℕ) :
    Option CoarsePass :=
  if 1000 < n then some ⟨500, 2022, 1, initGrid st k⟩ else none

/-- Lines 95-96 / 106-107 of `spare_scores.py`:
`param_grid[par] = _expspace([np.min(params[par_optimal]), np.max(params[par_optimal])])`.
`opt par` is the column `params[f'\x7bpar\x7d_optimal']` of the per-fold
optimal-hyperparameter table returned by the coarse pass.
Modelled from the spec: `run_SVC` / `run_SVR` live in
`spare_scores/svm.py`, which is not part of the given sources; per
sections 4.3-4.4 of the specification the refinement uses the natural
logs of the observed optimal values as the new span endpoints, so the
table is modelled as holding the log-scale optimal value of each fold,
each of which is one of the exponents of the coarse grid. -/
noncomputable def refineGrid (g : List (String × List ℝ)) (opt : String → List ℚ) :
    List (String × List ℝ) :=
  g.map (fun e => (e.1, _expspace (listMin (opt e.1)) (listMax (opt e.1))))

/-- The hyperparameter grid `spare_train` passes to the full-sample fit:
the coarse grid, refined through the subsample pass when the training
table has more than 1000 rows (lines 92-96 / 103-107). -/
noncomputable def trainGrid (st : SpareType) (k : Kernel) (n : ℕ)
    (opt : String → List ℚ) : List (String × List ℝ) :=
  if 1000 < n then refineGrid (initGrid st k) opt else initGrid st k

/-- One row of the inference table: its `PTID` and its predictor vector
`df[metaData['predictors']]`. -/
structure TestRow where
  ptid : Val
  x : List ℚ

/-- The data of fold `i` of the loaded model bundle, gathering the
entries at index `i` of the parallel arrays `mdl['scaler']`, `mdl['mdl']`,
`mdl['bias_correct']['int']`, `mdl['bias_correct']['slope']` and
`mdl['cv_folds']`.  `transform` is the fitted scaler's `transform`,
`coef` / `intercept` the linear SVM coefficients, `decf` the
`decision_function` used for non-linear kernels, and `trainIdx` the
fold's training-partition row indices `cv_folds[i][0]`. -/
structure FoldMdl where
  transform : List ℚ → List ℚ
  coef : List ℚ
  intercept : ℚ
  decf : List ℚ → ℚ
  biasInt : ℚ
  biasSlope : ℚ
  trainIdx : List ℕ

/-- `metaData['cv_results']['PTID'][mdl['cv_folds'][i][0]]`: the PTIDs of
the rows of the training partition of a fold, looked up by position in
the cross-validation results table. -/
def trainPtidsOf (cvPtids : List Val) (idx : List ℕ) : List Val :=
  idx.filterMap (fun j => cvPtids[j]?)

/-- Line 185-189 of `spare_scores.py`: the raw decision value of one fold
for one row.  Linear kernel: `np.sum(X * coef, axis=1) + intercept` on the
scaled features; otherwise the kernel's `decision_function`. -/
def rawScore (k : Kernel) (f : FoldMdl) (x : List ℚ) : ℚ :=
  let X := f.transform x
  match k with
  | .linear => (List.zipWith (· * ·) X f.coef).sum + f.intercept
  | .rbf => f.decf X

/-- Line 190-191: regression bias correction
`ss[:, i] = (ss[:, i] - bias_correct['int'][i]) / bias_correct['slope'][i]`;
no change for classification. -/
def biasStage (st : SpareType) (f : FoldMdl) (s : ℚ) : ℚ :=
  if st = .regression then (s - f.biasInt) / f.biasSlope else s

/-- Line 192: leakage masking
`ss[df['PTID'].isin(cv_results['PTID'][cv_folds[i][0]]), i] = np.nan`.
A missing (NaN) per-fold score is modelled by `none`. -/
def maskStage (cvPtids : List Val) (f : FoldMdl) (p : Val) (s : ℚ) : Option ℚ :=
  if p ∈ trainPtidsOf cvPtids f.trainIdx then none else some s

/-- The per-fold score `ss[row, i]` after all three stages of the scoring
loop (lines 184-192). -/
def foldScore (k : Kernel) (st : SpareType) (cvPtids : List Val) (f : FoldMdl)
    (r : TestRow) : Option ℚ :=
  maskStage cvPtids f r.ptid (biasStage st f (rawScore k f r.x))

/-- `np.nanmean` along one row of the score matrix: the mean of the
non-missing entries, or missing when every entry is missing. -/
def nanmean (l : List (Option ℚ)) : Option ℚ :=
  let v := l.filterMap id
  if v.isEmpty then none else some (v.sum / v.length)

/-- Line 194: the final SPARE score of a row,
`np.nanmean(ss, axis=1)` over the `n_ensemble` per-fold scores. -/
def spareScore (k : Kernel) (st : SpareType) (cvPtids : List Val)
    (folds : List FoldMdl) (r : TestRow) : Option ℚ :=
  nanmean (folds.map (fun f => foldScore k st cvPtids f r))

/-- A pandas column label: either an integer label (produced by
`int(a.split('_')[-1])`) or a string label. -/
inductive Lbl
  | int (z : ℤ)
  | str (s : String)
deriving DecidableEq, Repr

/-- Python `'_' in a` on a column name. -/
def underIn (s : String) : Bool :=
  s.data.any (fun c => c = '_')

/-- `a.split('_')[-1]`: the characters after the last underscore (the
whole name when it has none). -/
def lastUnder (s : String) : String :=
  String.mk (s.data.foldl (fun acc c => if c = '_' then [] else acc ++ [c]) [])

/-- A decimal digit's value. -/
def charDigit? (c : Char) : Option ℕ :=
  if '0' ≤ c ∧ c ≤ '9' then some (c.toNat - '0'.toNat) else none

/-- The value of a nonempty all-digit character list. -/
def digitsVal? (l : List Char) : Option ℕ :=
  if l = [] then none
  else l.foldl (fun acc c =>
    match acc, charDigit? c with
    | some n, some d => some (n * 10 + d)
    | _, _ => none) (some 0)

/-- Python `int(·)` on a string: an optional minus sign followed by
decimal digits; `none` models the `ValueError` raised on anything else. -/
def strToInt? (s : String) : Option ℤ :=
  match s.data with
  | '-' :: rest => (digitsVal? rest).map (fun n => -(n : ℤ))
  | l => (digitsVal? l).map (fun n => (n : ℤ))

/-- Lexicographic comparison of strings by their characters, the order
Python `sorted` uses. -/
def charsLe : List Char → List Char → Bool
  | [], _ => true
  | _ :: _, [] => false
  | a :: as, b :: bs => if a = b then charsLe as bs else decide (a < b)

/-- `sorted(set(l))` on a list of strings. -/
def sortedDedup (l : List String) : List String :=
  (pdUnique l).insertionSort (fun a b => charsLe a.data b.data)

/-- `df.rename(columns=dict(zip(keys, vals)))` restricted to the column
labels: each label equal to some key is replaced by the paired value,
later pairs winning as in a Python dict. -/
def renameCols (ren : List (Lbl × Lbl)) (cols : List Lbl) : List Lbl :=
  cols.map (fun l => (List.lookup l ren.reverse).getD l)

/-- Lines 133-150 of `spare_scores.py`: predictor reconciliation of
`spare_test`.  `preds` is `metaData['predictors']` and `cols` the labels
of the input table's columns.  The result is the (possibly renamed)
column labels, or the sorted list of unresolved predictor names logged by
`Not all predictors exist in the input dataframe`.  Python `int(·)` on a
string is modelled by `strToInt?`, whose failure (the `ValueError`
caught by the `try`/`except`) is `none`; note the three alternate label
lists are built eagerly, so one failing suffix aborts all three. -/
def reconcile (preds : List String) (cols : List Lbl) :
    Except (List String) (List Lbl) :=
  if preds.all (fun p => Lbl.str p ∈ cols) then .ok cols
  else
    let colsNotFound := sortedDedup (preds.filter (fun p => Lbl.str p ∉ cols))
    if 0 < (colsNotFound.filter (fun a => ¬ underIn a)).length then
      .error colsNotFound
    else
      let roiName := preds.filter (fun a => underIn a)
      match roiName.mapM (fun a => strToInt? (lastUnder a)) with
      | none => .error colsNotFound
      | some ints =>
          let alts : List (List Lbl) :=
            [ints.map Lbl.int,
             roiName.map (fun a => Lbl.str (lastUnder a)),
             roiName.map (fun a => Lbl.str ("R" ++ lastUnder a))]
          let cols2 := alts.foldl (fun cs alt =>
            if alt.all (fun l => l ∈ cs) then
              renameCols (List.zip alt (roiName.map Lbl.str)) cs
            else cs) cols
          let cnf2 := preds.filter (fun p => Lbl.str p ∉ cols2)
          if 0 < cnf2.length then .error (sortedDedup cnf2) else .ok cols2

/-- A dataframe column: its dtype and its cells (`none` models NaN). -/
structure Column where
  dtype : PdType
  cells : List (Option Val)
deriving DecidableEq, Repr

/-- A dataframe: named columns in order. -/
abbrev DFrameM := List (String × Column)

/-- `np.sum(np.sum(pd.isna(df[predictors]))) > 0` (line 63): some cell of
some predictor column is missing. -/
def anyMissing (df : DFrameM) (preds : List String) : Bool :=
  preds.any (fun p =>
    match List.lookup p df with
    | some c => c.cells.any (fun v => v.isNone)
    | none => false)

/-- Whether row `i` survives the filter
`df.loc[np.sum(pd.isna(df[predictors]), axis=1) == 0]` (line 65). -/
def keepRow (df : DFrameM) (preds : List String) (i : ℕ) : Bool :=
  preds.all (fun p =>
    match List.lookup p df with
    | some c => (c.cells.getD i none).isSome
    | none => true)

/-- Keep the cells at the indices selected by `keep`. -/
def filterCells (keep : ℕ → Bool) (cells : List (Option Val)) : List (Option Val) :=
  ((cells.enum).filter (fun p => keep p.1)).map Prod.snd

/-- Line 65: drop every row with a missing predictor value. -/
def dropMissingRows (preds : List String) (df : DFrameM) : DFrameM :=
  df.map (fun e => (e.1, { e.2 with cells := filterCells (keepRow df preds) e.2.cells }))

/-- The `{first-seen: 1, second-seen: 2}` dict of line 82, applied to one
cell by `Series.map` (line 83): a cell that is no key maps to NaN. -/
def mapCell (a b cell : Option Val) : Option Val :=
  if cell = a then some (Val.num 1)
  else if cell = b then some (Val.num 2)
  else none

/-- The categorical mapping stored in
`metaData['categorical_var_map'][var]` (lines 81-82): the two distinct
values of the column in first-seen order, or `none` (Python `None`) when
the column does not have exactly two distinct values. -/
def trainedMap (c : Column) : Option (Option Val × Option Val) :=
  match pdUnique c.cells with
  | [a, b] => some (a, b)
  | _ => none

/-- Line 83, `df[var] = df[var].map(...)`: replace a two-valued column by
its `{1, 2}` codes; leave other columns unchanged. -/
def convertColumn (c : Column) : Column :=
  match pdUnique c.cells with
  | [a, b] => { dtype := PdType.int64, cells := c.cells.map (mapCell a b) }
  | _ => c

/-- Lines 77-83: apply the categorical conversion to every predictor
column of dtype `object`. -/
def catConvert (preds : List String) (df : DFrameM) : DFrameM :=
  df.map (fun e =>
    if e.1 ∈ preds ∧ e.2.dtype = PdType.object then (e.1, convertColumn e.2) else e)

/-- `df[name] = col`: overwrite the column when present, else append it. -/
def setCol (df : DFrameM) (name : String) (c : Column) : DFrameM :=
  if df.any (fun e => e.1 = name) then
    df.map (fun e => if e.1 = name then (name, c) else e)
  else df ++ [(name, c)]

/-- Lines 166-171 of `spare_scores.py`, the body of the categorical
replay loop of `spare_test` for one stored two-valued map
`{a: 1, b: 2}` of column `var`: remap when every observed cell is a key
(`np.all(df[var].isin(keys))`), otherwise fail logging the column name
and the accepted values. -/
def testRemapColumn (var : String) (a b : Option Val) (tcells : List (Option Val)) :
    Except (String × List (Option Val)) (List (Option Val)) :=
  if tcells.all (fun cell => cell = a ∨ cell = b) then .ok (tcells.map (mapCell a b))
  else .error (var, [a, b])

/-- A Python dataframe variable as seen from the caller: `caller` is the
object the caller passed, `cur` the object the function's local name is
bound to, `aliased` whether they are still the same object.  In-place
mutation (`predictors.remove`, `df[var] = ...`, `df['predicted'] = ...`)
goes through `mutate`; rebinding the local name (`df = df.loc[...]`,
`df = df.copy()`) goes through `rebind` and breaks the alias. -/
structure DfVar where
  caller : DFrameM
  cur : DFrameM
  aliased : Bool

/-- In-place mutation: hits the caller's object while still aliased. -/
def mutate (f : DFrameM → DFrameM) (v : DfVar) : DfVar :=
  ⟨if v.aliased then f v.caller else v.caller, f v.cur, v.aliased⟩

/-- Rebinding the local name to a fresh object. -/
def rebind (f : DFrameM → DFrameM) (v : DfVar) : DfVar :=
  ⟨v.caller, f v.cur, false⟩

/-- The dataframe/list effects of `spare_train` (lines 60-65, 77-83 and
97/108 of `spare_scores.py`) along the path that passes validation:
the target is removed from the caller's own predictor list
(`predictors.remove`, line 62); the local `df` is rebound to a filtered
copy only when some predictor value is missing (line 65); the
categorical conversion (line 83) and the `predicted` column
(lines 97/108) are in-place writes to whatever object `df` is then
bound to.  Returns the caller's predictor list and the dataframe
variable after the call. -/
def spare_train_frames (df0 : DFrameM) (preds0 : List String) (tgt : String)
    (predCol : Column) : List String × DfVar :=
  let preds := if tgt ∈ preds0 then preds0.erase tgt else preds0
  let v0 : DfVar := ⟨df0, df0, true⟩
  let v1 := if anyMissing v0.cur preds then rebind (dropMissingRows preds) v0 else v0
  let v2 := mutate (catConvert preds) v1
  let v3 := mutate (fun d => setCol d "predicted" predCol) v2
  (preds, v3)

/-- `df.rename(columns=dict(zip(keys, vals)))` on a string-labelled
dataframe (line 143, as it acts on the local copy in `spare_test`). -/
def renameDf (ren : List (String × String)) (df : DFrameM) : DFrameM :=
  df.map (fun e => ((List.lookup e.1 ren.reverse).getD e.1, e.2))

/-- Line 168, `df[var] = df[var].map(...)` replayed over a stored
categorical map, on the success path of the replay loop. -/
def remapDf (catMap : List (String × (Option Val × Option Val))) (df : DFrameM) :
    DFrameM :=
  df.map (fun e =>
    match List.lookup e.1 catMap with
    | some (a, b) => (e.1, { e.2 with cells := e.2.cells.map (mapCell a b) })
    | none => e)

/-- The dataframe effects of `spare_test` (lines 130, 143, 168): the
local name is immediately rebound to a copy (`df = df.copy()`, line 130),
after which the ROI renaming and the categorical replay mutate only the
copy.  Returns the caller's object and the local object after the call. -/
def spare_test_frames (df0 : DFrameM) (ren : List (String × String))
    (catMap : List (String × (Option Val × Option Val))) : DFrameM × DFrameM :=
  let v0 : DfVar := ⟨df0, df0, true⟩
  let v1 := rebind id v0
  let v2 := mutate (renameDf ren) v1
  let v3 := mutate (remapDf catMap) v2
  (v3.caller, v3.cur)

theorem pyInt_intCast (z : ℤ) : pyInt (z : ℚ) = z := by
  unfold pyInt
  split <;> simp

theorem linspace_pairwise (a b : ℚ) (n : ℕ) (hab : a < b) :
    (linspace a b n).Pairwise (· < ·) := by
  match n with
  | 0 => simp [linspace]
  | 1 => simp [linspace]
  | Nat.succ (Nat.succ m) =>
      show (((List.range (m + 2)).map
        (fun i : ℕ => a + (i : ℚ) * (b - a) / (m + 1)))).Pairwise (· < ·)
      have hd : (0 : ℚ) < (b - a) / (m + 1) := by
        apply div_pos (by linarith)
        positivity
      refine List.Pairwise.map _ (fun i j hij => ?_) (List.pairwise_lt_range (m + 2))
      have hij' : (i : ℚ) < j := by exact_mod_cast hij
      have h2 : (i : ℚ) * (b - a) / (m + 1) < (j : ℚ) * (b - a) / (m + 1) := by
        rw [mul_div_assoc, mul_div_assoc]
        exact mul_lt_mul_of_pos_right hij' hd
      linarith

/-- C6: for every integer span `[lo, hi]` with `lo ≤ hi`, `_expspace`
returns exactly `hi - lo + 1` values equal to
`exp(linspace(lo, hi, hi - lo + 1))`, and the returned sequence is
strictly monotonically increasing whenever `lo < hi`. -/
theorem expspace_length_monotone (lo hi : ℤ) (h : lo ≤ hi) :
    (_expspace (lo : ℚ) (hi : ℚ)).length = (hi - lo + 1).toNat ∧
    _expspace (lo : ℚ) (hi : ℚ)
      = (linspace (lo : ℚ) (hi : ℚ) (hi - lo + 1).toNat).map
          (fun q : ℚ => Real.exp (q : ℝ)) ∧
    (lo < hi → (_expspace (lo : ℚ) (hi : ℚ)).Pairwise (· < ·)) := by
  have he : _expspace (lo : ℚ) (hi : ℚ)
      = (linspace (lo : ℚ) (hi : ℚ) (hi - lo + 1).toNat).map
          (fun q : ℚ => Real.exp (q : ℝ)) := by
    unfold _expspace
    rw [pyInt_intCast, pyInt_intCast]
  refine ⟨?_, he, ?_⟩
  · rw [he, List.length_map, linspace_length]
  · intro hlt
    rw [he]
    refine List.Pairwise.map _ (fun p q hpq => ?_)
      (linspace_pairwise (lo : ℚ) (hi : ℚ) _ (by exact_mod_cast hlt))
    exact Real.exp_lt_exp.mpr (by exact_mod_cast hpq)

/-- Witness for C6 at the concrete span `[-2, 1]`. -/
theorem expspace_length_monotone_witness :
    ((-2 : ℤ) ≤ 1) ∧ (_expspace ((-2 : ℚ)) ((1 : ℚ))).length = 4 :=
  ⟨by decide, by
    have h := (expspace_length_monotone (-2) 1 (by decide)).1
    norm_num at h
    convert h using 2 <;> norm_num⟩

/-- C3: on a target column with exactly two distinct values, `spare_train`
selects Classification; it fails when no positive group is given, fails
when the given positive group is not one of the two observed values,
fails when the smaller group has fewer than 10 rows, and only warns
(without failing) when the smaller group has at least 10 but fewer than
100 rows. -/
theorem spare_train_classification_validation
    (tvals : List Val) (tdtype : PdType) (ptids : List Val) (posGroup : Val)
    (h2 : (pdUnique tvals).length = 2) :
    (posGroup = Val.str "" →
      spareTypeDetect tvals tdtype ptids posGroup = .error .missingPosGroup) ∧
    (posGroup ≠ Val.str "" → posGroup ∉ pdUnique tvals →
      spareTypeDetect tvals tdtype ptids posGroup = .error .invalidPosGroup) ∧
    (posGroup ≠ Val.str "" → posGroup ∈ pdUnique tvals → minCount tvals < 10 →
      spareTypeDetect tvals tdtype ptids posGroup = .error .insufficientGroupSize) ∧
    (posGroup ≠ Val.str "" → posGroup ∈ pdUnique tvals →
      10 ≤ minCount tvals → minCount tvals < 100 →
      ∃ out, spareTypeDetect tvals tdtype ptids posGroup = .ok out ∧
        out.spareType = .classification ∧ SpareWarn.smallGroup ∈ out.warns) ∧
    (∀ out, spareTypeDetect tvals tdtype ptids posGroup = .ok out →
      out.spareType = .classification) := by
  refine ⟨?_, ?_, ?_, ?_, ?_⟩
  · intro h0
    simp only [spareTypeDetect]
    rw [if_pos h2, if_pos h0]
  · intro h0 h1
    simp only [spareTypeDetect]
    rw [if_pos h2, if_neg h0, if_pos h1]
  · intro h0 h1 hmin
    simp only [spareTypeDetect]
    rw [if_pos h2, if_neg h0, if_neg (not_not_intro h1), if_pos hmin]
  · intro h0 h1 hmin1 hmin2
    refine ⟨⟨.classification, (pdUnique tvals).filter (· ≠ posGroup) ++ [posGroup],
      [SpareWarn.smallGroup] ++
        (if (ptids.zip tvals).Nodup then [] else [SpareWarn.dupParticipants])⟩,
      ?_, rfl, by simp⟩
    simp only [spareTypeDetect]
    rw [if_pos h2, if_neg h0, if_neg (not_not_intro h1), if_neg (by omega), if_pos hmin2]
  · intro out hout
    simp only [spareTypeDetect] at hout
    rw [if_pos h2] at hout
    split_ifs at hout
    all_goals (injection hout with h <;> rw [← h])

/-- Witness for C3: a two-valued target and an absent positive group. -/
theorem spare_train_classification_validation_witness :
    (pdUnique [Val.str "CN", Val.str "AD"]).length = 2 ∧
      spareTypeDetect [Val.str "CN", Val.str "AD"] PdType.object [] (Val.str "")
        = .error .missingPosGroup :=
  ⟨by decide,
    (spare_train_classification_validation [Val.str "CN", Val.str "AD"]
      PdType.object [] (Val.str "") (by decide)).1 rfl⟩

/-- C4: on a target column with more than two distinct values,
`spare_train` selects Regression; it fails when the target dtype is not
numeric, fails when the table has fewer than 10 rows, and only warns
(without failing) when it has at least 10 but fewer than 100 rows. -/
theorem spare_train_regression_validation
    (tvals : List Val) (tdtype : PdType) (ptids : List Val) (posGroup : Val)
    (h2 : 2 < (pdUnique tvals).length) :
    (tdtype = PdType.object →
      spareTypeDetect tvals tdtype ptids posGroup = .error .nonNumericTarget) ∧
    ((tdtype = PdType.int64 ∨ tdtype = PdType.float64) → tvals.length < 10 →
      spareTypeDetect tvals tdtype ptids posGroup = .error .insufficientSampleSize) ∧
    ((tdtype = PdType.int64 ∨ tdtype = PdType.float64) →
      10 ≤ tvals.length → tvals.length < 100 →
      ∃ out, spareTypeDetect tvals tdtype ptids posGroup = .ok out ∧
        out.spareType = .regression ∧ SpareWarn.smallSample ∈ out.warns) ∧
    (∀ out, spareTypeDetect tvals tdtype ptids posGroup = .ok out →
      out.spareType = .regression) := by
  have hne : ¬ (pdUnique tvals).length = 2 := by omega
  refine ⟨?_, ?_, ?_, ?_⟩
  · intro h0
    simp only [spareTypeDetect]
    rw [if_neg hne, if_pos h2, if_pos (by simp [h0])]
  · intro h0 h1
    simp only [spareTypeDetect]
    rw [if_neg hne, if_pos h2, if_neg (by rcases h0 with h | h <;> simp [h]), if_pos h1]
  · intro h0 h1 h3
    refine ⟨⟨.regression, [],
      ([SpareWarn.smallSample] ++
        (if ptids.Nodup then [] else [SpareWarn.dupParticipants])) ++
          (if posGroup ≠ Val.str "" then [SpareWarn.posGroupIgnored] else [])⟩,
      ?_, rfl, by simp⟩
    simp only [spareTypeDetect]
    rw [if_neg hne, if_pos h2, if_neg (by rcases h0 with h | h <;> simp [h]),
      if_neg (by omega), if_pos h3]
  · intro out hout
    simp only [spareTypeDetect] at hout
    rw [if_neg hne, if_pos h2] at hout
    split_ifs at hout
    all_goals (injection hout with h <;> rw [← h])

/-- Witness for C4: a three-valued numeric target with 3 rows. -/
theorem spare_train_regression_validation_witness :
    2 < (pdUnique [Val.num 1, Val.num 2, Val.num 3]).length ∧
      spareTypeDetect [Val.num 1, Val.num 2, Val.num 3] PdType.int64 [] (Val.str "")
        = .error .insufficientSampleSize :=
  ⟨by decide,
    (spare_train_regression_validation [Val.num 1, Val.num 2, Val.num 3]
      PdType.int64 [] (Val.str "") (by decide)).2.1 (Or.inl rfl) (by decide)⟩

/-- C5: for a two-valued categorical predictor column, training stores the
map sending the first-seen value to 1 and the second-seen value to 2 and
replaces the column by the mapped values; inference remaps a column
through a stored two-valued map exactly when every observed value is one
of its keys, and otherwise fails naming the column and the accepted
values. -/
theorem categorical_map_train_test (c : Column) (a b : Option Val)
    (h : pdUnique c.cells = [a, b]) :
    trainedMap c = some (a, b) ∧
    mapCell a b a = some (Val.num 1) ∧
    mapCell a b b = some (Val.num 2) ∧
    convertColumn c = { dtype := PdType.int64, cells := c.cells.map (mapCell a b) } ∧
    (∀ (var : String) (tcells : List (Option Val)),
      ((∀ cell ∈ tcells, cell = a ∨ cell = b) →
        testRemapColumn var a b tcells = .ok (tcells.map (mapCell a b))) ∧
      ((∃ cell ∈ tcells, cell ≠ a ∧ cell ≠ b) →
        testRemapColumn var a b tcells = .error (var, [a, b]))) := by
  have hne : a ≠ b := by
    have hnd := pdUnique_nodup c.cells
    rw [h] at hnd
    exact (List.nodup_cons.mp hnd).1 ∘ List.mem_singleton.mpr
  refine ⟨by simp [trainedMap, h], by simp [mapCell], ?_, by simp [convertColumn, h], ?_⟩
  · simp [mapCell, hne.symm]
  · intro var tcells
    constructor
    · intro hall
      rw [testRemapColumn, if_pos]
      simpa using hall
    · rintro ⟨cell, hmem, hca, hcb⟩
      rw [testRemapColumn, if_neg]
      simp only [List.all_eq_true, decide_eq_true_eq, not_forall]
      exact ⟨cell, by simp [hmem, hca, hcb]⟩

/-- Witness for C5: a Sex column with values M (first seen) and F. -/
theorem categorical_map_train_test_witness :
    pdUnique (Column.mk PdType.object
        [some (Val.str "M"), some (Val.str "F"), some (Val.str "M")]).cells
      = [some (Val.str "M"), some (Val.str "F")] ∧
    trainedMap (Column.mk PdType.object
        [some (Val.str "M"), some (Val.str "F"), some (Val.str "M")])
      = some (some (Val.str "M"), some (Val.str "F")) :=
  ⟨by decide,
    (categorical_map_train_test
      (Column.mk PdType.object
        [some (Val.str "M"), some (Val.str "F"), some (Val.str "M")])
      (some (Val.str "M")) (some (Val.str "F")) (by decide)).1⟩

/-- C8: at inference, a regression model's per-fold raw decision value is
transformed by `(raw - intercept) / slope` with that fold's stored
bias-correction terms, and the correction happens before the leakage
masking and before the ensemble averaging; a classification model's
per-fold value is left uncorrected. -/
theorem regression_bias_correction_order (k : Kernel) (cvPtids : List Val)
    (folds : List FoldMdl) (f : FoldMdl) (r : TestRow) :
    (biasStage .regression f (rawScore k f r.x)
       = (rawScore k f r.x - f.biasInt) / f.biasSlope) ∧
    (foldScore k .regression cvPtids f r
       = if r.ptid ∈ trainPtidsOf cvPtids f.trainIdx then none
         else some ((rawScore k f r.x - f.biasInt) / f.biasSlope)) ∧
    (foldScore k .classification cvPtids f r
       = if r.ptid ∈ trainPtidsOf cvPtids f.trainIdx then none
         else some (rawScore k f r.x)) ∧
    (spareScore k .regression cvPtids folds r
       = nanmean (folds.map (fun g => foldScore k .regression cvPtids g r))) := by
  refine ⟨rfl, ?_, ?_, rfl⟩
  · simp [foldScore, maskStage, biasStage]
  · simp [foldScore, maskStage, biasStage]

theorem filterMap_mask (k : Kernel) (st : SpareType) (cvPtids : List Val)
    (r : TestRow) :
    ∀ folds : List FoldMdl,
      (folds.map (fun f => foldScore k st cvPtids f r)).filterMap id =
        (folds.filter (fun f => r.ptid ∉ trainPtidsOf cvPtids f.trainIdx)).map
          (fun f => biasStage st f (rawScore k f r.x)) := by
  intro folds
  induction folds with
  | nil => rfl
  | cons g gs ih =>
      simp only [List.filterMap_map, foldScore, maskStage] at ih ⊢
      simp only [Function.id_comp] at ih
      by_cases hg : r.ptid ∈ trainPtidsOf cvPtids g.trainIdx
      · simp [hg, ih]
      · simp [hg, ih]

/-- C1: at inference, a fold's score for a row is missing (NaN) exactly
when the row's identifier appears in that fold's own training partition;
the final score is the mean of the non-missing per-fold scores, and a row
whose per-fold scores are all missing gets a missing final score. -/
theorem spare_test_leakage_mask_and_mean (k : Kernel) (st : SpareType)
    (cvPtids : List Val) (folds : List FoldMdl) (r : TestRow) :
    (∀ f ∈ folds, (foldScore k st cvPtids f r = none ↔
        r.ptid ∈ trainPtidsOf cvPtids f.trainIdx)) ∧
    (spareScore k st cvPtids folds r = none ↔
        ∀ f ∈ folds, r.ptid ∈ trainPtidsOf cvPtids f.trainIdx) ∧
    (∀ avail : List ℚ,
      avail = (folds.filter (fun f => r.ptid ∉ trainPtidsOf cvPtids f.trainIdx)).map
          (fun f => biasStage st f (rawScore k f r.x)) →
      avail ≠ [] →
      spareScore k st cvPtids folds r = some (avail.sum / avail.length)) := by
  refine ⟨?_, ?_, ?_⟩
  · intro f hf
    simp [foldScore, maskStage]
  · have hiff : ((folds.filter
        (fun f => r.ptid ∉ trainPtidsOf cvPtids f.trainIdx)).map
          (fun f => biasStage st f (rawScore k f r.x))).isEmpty = true ↔
        ∀ f ∈ folds, r.ptid ∈ trainPtidsOf cvPtids f.trainIdx := by
      rw [List.isEmpty_iff, List.map_eq_nil_iff, List.filter_eq_nil_iff]
      simp
    rw [spareScore, nanmean]
    simp only [filterMap_mask]
    split_ifs with hc
    · exact iff_of_true rfl (hiff.mp hc)
    · exact iff_of_false (by simp) (fun hall => hc (hiff.mpr hall))
  · intro avail heq hne
    rw [spareScore, nanmean]
    simp only [filterMap_mask, ← heq]
    rw [if_neg (by simpa using hne)]

/-- Witness for C1: a one-fold model whose fold trained on the row's
participant gives that row a missing per-fold score. -/
theorem spare_test_leakage_mask_and_mean_witness :
    foldScore Kernel.linear SpareType.classification [Val.str "p1"]
      (FoldMdl.mk id [1] 0 (fun _ => 0) 0 1 [0])
      (TestRow.mk (Val.str "p1") [2]) = none :=
  ((spare_test_leakage_mask_and_mean Kernel.linear SpareType.classification
      [Val.str "p1"] [FoldMdl.mk id [1] 0 (fun _ => 0) 0 1 [0]]
      (TestRow.mk (Val.str "p1") [2])).1
    (FoldMdl.mk id [1] 0 (fun _ => 0) 0 1 [0])
    (List.mem_singleton.mpr rfl)).mpr (by decide)

/-- C9: `spare_train` mutates its caller's arguments in place — the target
is removed from the caller's own predictor list, and when no rows are
dropped for missing predictor values the caller's dataframe itself gets
its two-valued categorical columns overwritten and a `predicted` column
added, while when rows are dropped the local dataframe is rebound to a
filtered copy and the caller's dataframe stays unchanged; `spare_test`
copies its input dataframe and leaves the caller's table unchanged. -/
theorem spare_train_caller_mutation (df0 : DFrameM) (preds0 : List String)
    (tgt : String) (predCol : Column) :
    (tgt ∈ preds0 → (spare_train_frames df0 preds0 tgt predCol).1 = preds0.erase tgt) ∧
    (anyMissing df0 (spare_train_frames df0 preds0 tgt predCol).1 = false →
      (spare_train_frames df0 preds0 tgt predCol).2.caller =
        setCol (catConvert (spare_train_frames df0 preds0 tgt predCol).1 df0)
          "predicted" predCol) ∧
    (anyMissing df0 (spare_train_frames df0 preds0 tgt predCol).1 = true →
      (spare_train_frames df0 preds0 tgt predCol).2.caller = df0) ∧
    (∀ ren catMap, (spare_test_frames df0 ren catMap).1 = df0) := by
  have h1 : (spare_train_frames df0 preds0 tgt predCol).1
      = (if tgt ∈ preds0 then preds0.erase tgt else preds0) := rfl
  refine ⟨?_, ?_, ?_, ?_⟩
  · intro hmem
    rw [h1, if_pos hmem]
  · intro hm
    rw [h1] at hm
    simp only [spare_train_frames, mutate, rebind, hm]
    simp
  · intro hm
    rw [h1] at hm
    simp only [spare_train_frames, mutate, rebind, hm]
    simp
  · intro ren catMap
    simp [spare_test_frames, mutate, rebind]

/-- Witness for C9: the target is removed from the caller's predictor
list. -/
theorem spare_train_caller_mutation_witness :
    ("T" ∈ ["A", "T"]) ∧
      (spare_train_frames
          [("A", Column.mk PdType.object [some (Val.str "x")])]
          ["A", "T"] "T" (Column.mk PdType.float64 [some (Val.num 5)])).1
        = ["A"] :=
  ⟨by decide,
    (spare_train_caller_mutation
      [("A", Column.mk PdType.object [some (Val.str "x")])]
      ["A", "T"] "T" (Column.mk PdType.float64 [some (Val.num 5)])).1 (by decide)⟩

theorem floor_cast_of_den_one (q : ℚ) (h : q.den = 1) : ((⌊q⌋ : ℤ) : ℚ) = q := by
  have hq : ((q.num : ℚ)) = q := Rat.coe_int_num_of_den_eq_one h
  rw [← hq, Int.floor_intCast]

theorem ceil_cast_of_den_one (q : ℚ) (h : q.den = 1) : ((⌈q⌉ : ℤ) : ℚ) = q := by
  have hq : ((q.num : ℚ)) = q := Rat.coe_int_num_of_den_eq_one h
  rw [← hq, Int.ceil_intCast]

/-- C2: when the (filtered) training table has more than 1000 rows,
`spare_train` first runs a single-repeat ensemble fit on a subsample of
500 rows drawn with fixed seed 2022 using the coarse grid, and then
replaces each hyperparameter's grid by the exponential grid whose span
is `[floor(min optimal), ceil(max optimal)]` over the (integral) natural
logs of the per-fold optimal values observed on the coarse pass, before
the full-sample fit. -/
theorem spare_train_grid_refinement (st : SpareType) (k : Kernel) (n : ℕ)
    (opt : String → List ℚ) (hn : 1000 < n)
    (hopt : ∀ e ∈ initGrid st k, opt e.1 ≠ [] ∧ ∀ v ∈ opt e.1, v.den = 1) :
    coarsePass st k n = some (CoarsePass.mk 500 2022 1 (initGrid st k)) ∧
    trainGrid st k n opt = (initGrid st k).map (fun e =>
      (e.1, _expspace ((⌊listMin (opt e.1)⌋ : ℤ) : ℚ)
                      ((⌈listMax (opt e.1)⌉ : ℤ) : ℚ))) := by
  constructor
  · rw [coarsePass, if_pos hn]
  · rw [trainGrid, if_pos hn, refineGrid]
    refine List.map_congr_left (fun e he => ?_)
    obtain ⟨hne, hden⟩ := hopt e he
    have hminden : (listMin (opt e.1)).den = 1 := hden _ (listMin_mem _ hne)
    have hmaxden : (listMax (opt e.1)).den = 1 := hden _ (listMax_mem _ hne)
    rw [floor_cast_of_den_one _ hminden, ceil_cast_of_den_one _ hmaxden]

/-- Witness for C2: a 1500-row table triggers the seeded 500-row
single-repeat coarse pass. -/
theorem spare_train_grid_refinement_witness :
    (1000 < 1500) ∧
      coarsePass SpareType.regression Kernel.linear 1500
        = some (CoarsePass.mk 500 2022 1 (initGrid SpareType.regression Kernel.linear)) :=
  ⟨by decide,
    (spare_train_grid_refinement SpareType.regression Kernel.linear 1500
      (fun _ => [(-3 : ℚ), 2]) (by decide)
      (fun e _ =>
        ⟨by show ([(-3 : ℚ), 2] ≠ []); decide,
         by show (∀ v ∈ [(-3 : ℚ), 2], v.den = 1); decide⟩)).1⟩

/-- `[a for a in metaData['predictors'] if '_' in a]` (line 138). -/
def roiNames (preds : List String) : List String :=
  preds.filter (fun a => underIn a)

/-- Alternate convention 1 (line 139): the suffix after the last
underscore as an integer label; written with `getD 0`, which agrees with
`int(a.split('_')[-1])` whenever every suffix parses. -/
def altInt (preds : List String) : List Lbl :=
  (roiNames preds).map (fun a => Lbl.int ((strToInt? (lastUnder a)).getD 0))

/-- Alternate convention 2 (line 140): the raw suffix string. -/
def altStr (preds : List String) : List Lbl :=
  (roiNames preds).map (fun a => Lbl.str (lastUnder a))

/-- Alternate convention 3 (line 141): the suffix with `R` prepended. -/
def altR (preds : List String) : List Lbl :=
  (roiNames preds).map (fun a => Lbl.str ("R" ++ lastUnder a))

theorem mapM_toInt_some (l : List String)
    (h : ∀ a ∈ l, (strToInt? (lastUnder a)).isSome) :
    l.mapM (fun a => strToInt? (lastUnder a))
      = some (l.map (fun a => (strToInt? (lastUnder a)).getD 0)) := by
  induction l with
  | nil => rfl
  | cons x xs ih =>
      obtain ⟨z, hz⟩ := Option.isSome_iff_exists.mp (h x (by simp))
      rw [List.mapM_cons, hz, ih (fun a ha => h a (by simp [ha]))]
      simp [hz]

theorem mapM_toInt_none (l : List String)
    (h : ∃ a ∈ l, strToInt? (lastUnder a) = none) :
    l.mapM (fun a => strToInt? (lastUnder a)) = none := by
  induction l with
  | nil => simp at h
  | cons x xs ih =>
      rw [List.mapM_cons]
      rcases h with ⟨a, ha, hnone⟩
      rcases List.mem_cons.mp ha with rfl | hxs
      · simp [hnone]
      · cases hx : strToInt? (lastUnder x)
        · simp [hx]
        · rw [ih ⟨a, hxs, hnone⟩]
          rfl

theorem mem_sortedDedup (l : List String) (a : String) :
    a ∈ sortedDedup l ↔ a ∈ l := by
  unfold sortedDedup
  rw [(List.perm_insertionSort _ _).mem_iff, pdUnique_mem]

theorem reconcile_eval (preds : List String) (cols : List Lbl)
    (hmiss : ∃ p ∈ preds, Lbl.str p ∉ cols)
    (hund : ∀ p ∈ preds, Lbl.str p ∉ cols → underIn p)
    (hints : ∀ a ∈ roiNames preds, (strToInt? (lastUnder a)).isSome) :
    reconcile preds cols =
      (let cols2 := [altInt preds, altStr preds, altR preds].foldl (fun cs alt =>
          if alt.all (fun l => l ∈ cs) then
            renameCols (List.zip alt ((roiNames preds).map Lbl.str)) cs
          else cs) cols
       if 0 < (preds.filter (fun p => Lbl.str p ∉ cols2)).length then
         .error (sortedDedup (preds.filter (fun p => Lbl.str p ∉ cols2)))
       else .ok cols2) := by
  have hnotall : ¬ (preds.all (fun p => Lbl.str p ∈ cols) = true) := by
    obtain ⟨p, hp, hnp⟩ := hmiss
    simp only [List.all_eq_true, decide_eq_true_eq]
    push_neg
    exact ⟨p, hp, hnp⟩
  have hfn : ((sortedDedup (preds.filter (fun p => Lbl.str p ∉ cols))).filter
      (fun a => ¬ underIn a)) = [] := by
    rw [List.filter_eq_nil_iff]
    intro a ha
    have hmema := (mem_sortedDedup _ _).mp ha
    have hsp := List.mem_filter.mp hmema
    have hu := hund a hsp.1 (by simpa using hsp.2)
    simp [hu]
  simp only [reconcile]
  rw [if_neg hnotall, hfn]
  rw [if_neg (by simp)]
  rw [mapM_toInt_some _ (by simpa [roiNames] using hints)]
  simp only [altInt, altStr, altR, roiNames, List.map_map, Function.comp_def]

/-- C7: when the inference table misses predictor columns, `spare_test`
tries three alternate conventions built from the suffix after the last
underscore of each expected name (integer ROI id, raw suffix, suffix
prefixed with `R`), renaming matching input columns to the expected
names, and fails listing the still-unresolved names when no convention
resolves all of them. -/
theorem spare_test_reconciliation (preds : List String) (cols : List Lbl)
    (hmiss : ∃ p ∈ preds, Lbl.str p ∉ cols)
    (hund : ∀ p ∈ preds, Lbl.str p ∉ cols → underIn p)
    (hints : ∀ a ∈ roiNames preds, (strToInt? (lastUnder a)).isSome) :
    ((¬ ∀ l ∈ altInt preds, l ∈ cols) →
     (¬ ∀ l ∈ altStr preds, l ∈ cols) →
     (¬ ∀ l ∈ altR preds, l ∈ cols) →
      reconcile preds cols
        = .error (sortedDedup (preds.filter (fun p => Lbl.str p ∉ cols)))) ∧
    (∀ cols2 : List Lbl,
      cols2 = renameCols (List.zip (altStr preds) ((roiNames preds).map Lbl.str)) cols →
      (¬ ∀ l ∈ altInt preds, l ∈ cols) →
      (∀ l ∈ altStr preds, l ∈ cols) →
      (¬ ∀ l ∈ altR preds, l ∈ cols2) →
      (∀ p ∈ preds, Lbl.str p ∈ cols2) →
      reconcile preds cols = .ok cols2) := by
  have heval := reconcile_eval preds cols hmiss hund hints
  constructor
  · intro h1 h2 h3
    have hfold : [altInt preds, altStr preds, altR preds].foldl (fun cs alt =>
        if alt.all (fun l => l ∈ cs) then
          renameCols (List.zip alt ((roiNames preds).map Lbl.str)) cs
        else cs) cols = cols := by
      rw [List.foldl_cons, if_neg (by simpa using h1),
          List.foldl_cons, if_neg (by simpa using h2),
          List.foldl_cons, if_neg (by simpa using h3), List.foldl_nil]
    rw [heval]
    simp only [hfold]
    rw [if_pos ?_]
    · obtain ⟨p, hp, hnp⟩ := hmiss
      have hmem : p ∈ preds.filter (fun p => Lbl.str p ∉ cols) :=
        List.mem_filter.mpr ⟨hp, by simpa using hnp⟩
      exact List.length_pos.mpr (List.ne_nil_of_mem hmem)
  · intro cols2 hc2 h1 h2 h3 hall
    have hfold : [altInt preds, altStr preds, altR preds].foldl (fun cs alt =>
        if alt.all (fun l => l ∈ cs) then
          renameCols (List.zip alt ((roiNames preds).map Lbl.str)) cs
        else cs) cols = cols2 := by
      rw [List.foldl_cons, if_neg (by simpa using h1),
          List.foldl_cons, if_pos (by simpa using h2), List.foldl_cons, ← hc2,
          if_neg (by simpa using h3), List.foldl_nil]
    rw [heval]
    simp only [hfold]
    rw [if_neg ?_]
    · have hnil : preds.filter (fun p => Lbl.str p ∉ cols2) = [] := by
        rw [List.filter_eq_nil_iff]
        intro p hp
        simpa using hall p hp
      rw [hnil]
      simp

/-- Witness for C7, the scenario of the specification: the table has
column `101` instead of `ROI_101`; the raw-suffix convention renames it
and inference proceeds. -/
theorem spare_test_reconciliation_witness :
    reconcile ["ROI_101"] [Lbl.str "101"] = .ok [Lbl.str "ROI_101"] :=
  (spare_test_reconciliation ["ROI_101"] [Lbl.str "101"]
      (by decide) (by decide) (by decide)).2
    [Lbl.str "ROI_101"] (by decide) (by decide) (by decide) (by decide) (by decide)

/-- C10: during reconciliation, a missing predictor without any
underscore aborts immediately with the missing-predictors error before
any convention is tried; and a non-integer suffix of any expected
underscore predictor aborts all three conventions at once — even the
purely string-based ones — with the same error. -/
theorem reconciliation_abort_paths (preds : List String) (cols : List Lbl) :
    ((∃ p ∈ preds, Lbl.str p ∉ cols ∧ ¬ underIn p) →
      reconcile preds cols
        = .error (sortedDedup (preds.filter (fun p => Lbl.str p ∉ cols)))) ∧
    ((∃ p ∈ preds, Lbl.str p ∉ cols) →
     (∀ p ∈ preds, Lbl.str p ∉ cols → underIn p) →
     (∃ a ∈ roiNames preds, strToInt? (lastUnder a) = none) →
      reconcile preds cols
        = .error (sortedDedup (preds.filter (fun p => Lbl.str p ∉ cols)))) := by
  constructor
  · rintro ⟨p, hp, hnp, hnc⟩
    have hnotall : ¬ (preds.all (fun q => Lbl.str q ∈ cols) = true) := by
      simp only [List.all_eq_true, decide_eq_true_eq]
      push_neg
      exact ⟨p, hp, hnp⟩
    simp only [reconcile]
    rw [if_neg hnotall, if_pos ?_]
    have hm1 : p ∈ sortedDedup (preds.filter (fun q => Lbl.str q ∉ cols)) :=
      (mem_sortedDedup _ _).mpr (List.mem_filter.mpr ⟨hp, by simpa using hnp⟩)
    have hm2 : p ∈ (sortedDedup (preds.filter (fun q => Lbl.str q ∉ cols))).filter
        (fun a => ¬ underIn a) :=
      List.mem_filter.mpr ⟨hm1, by simpa using hnc⟩
    exact List.length_pos.mpr (List.ne_nil_of_mem hm2)
  · intro hmiss hund hnone
    have hnotall : ¬ (preds.all (fun q => Lbl.str q ∈ cols) = true) := by
      obtain ⟨p, hp, hnp⟩ := hmiss
      simp only [List.all_eq_true, decide_eq_true_eq]
      push_neg
      exact ⟨p, hp, hnp⟩
    have hfn : ((sortedDedup (preds.filter (fun p => Lbl.str p ∉ cols))).filter
        (fun a => ¬ underIn a)) = [] := by
      rw [List.filter_eq_nil_iff]
      intro a ha
      have hmema := (mem_sortedDedup _ _).mp ha
      have hsp := List.mem_filter.mp hmema
      have hu := hund a hsp.1 (by simpa using hsp.2)
      simp [hu]
    simp only [reconcile]
    rw [if_neg hnotall, hfn]
    rw [if_neg (by simp)]
    rw [mapM_toInt_none _ (by simpa [roiNames] using hnone)]

/-- Witness for C10: predictor `ROI_abc` has a non-integer suffix, so
reconciliation errors even though the raw-suffix column `abc` exists. -/
theorem reconciliation_abort_paths_witness :
    reconcile ["ROI_abc"] [Lbl.str "abc"] = .error ["ROI_abc"] :=
  ((reconciliation_abort_paths ["ROI_abc"] [Lbl.str "abc"]).2
    (by decide) (by decide) (by decide)).trans rfl
